import Mathlib

/-!
Shallow embedding of the two scripts of samlhao/nextflow-spid:
`bin/parse_sketch_output.py` (the Resolver) and `bin/collect_sketch_output.py`
(the Aggregator), together with theorems settling the specification claims.

A pandas DataFrame as read from a TSV is modelled as an association list of
named string columns; Python exceptions are modelled by `Except String`.
-/

namespace Spid

/-- A sketch-hit table (pandas DataFrame): named columns of string values,
in column order. Row `i` of the table is the `i`-th entry of each column. -/
abbrev HitTable := List (String × List String)

/-- `df['name']`: the first column with the given name, or `none` when the
lookup would raise `KeyError`. -/
def lookupCol (df : HitTable) (name : String) : Option (List String) :=
  (df.find? (fun p => p.1 == name)).map Prod.snd

/-- Python `s.split(' ')` on the character list of `s`: split at every single
space character, keeping empty pieces (so the result is never empty). -/
def pySplitSpace : List Char → List (List Char)
  | [] => [[]]
  | c :: cs =>
    if c = ' ' then [] :: pySplitSpace cs
    else
      match pySplitSpace cs with
      | [] => [[c]]
      | w :: ws => (c :: w) :: ws

/-- `hit.split(' ')[0]` from `get_species`: the genus token of one
taxonomy-name value. -/
def genusToken (s : String) : String :=
  String.mk ((pySplitSpace s.data).headD [])

/-- One step of building `collections.Counter`: increment the count of `x`
if it is already a key, otherwise append it as a new key with count 1
(dict insertion order is preserved). -/
def counterAdd (acc : List (String × Nat)) (x : String) : List (String × Nat) :=
  if acc.any (fun p => p.1 == x) then
    acc.map (fun p => if p.1 = x then (p.1, p.2 + 1) else p)
  else acc ++ [(x, 1)]

/-- `collections.Counter(xs)` as an insertion-ordered association list from
key to occurrence count. -/
def counter (xs : List String) : List (String × Nat) :=
  xs.foldl counterAdd []

/-- One comparison step of CPython `max`: replace the current best only on a
strictly greater key, so the first entry of maximal key wins. -/
def maxStep (q r : String × Nat) : String × Nat := if r.2 > q.2 then r else q

/-- `Counter.most_common(1)[0]` (CPython: `max(items, key=itemgetter(1))`):
the first entry of maximal count, `none` on an empty counter
(where `most_common(1)[0]` would raise `IndexError`). -/
def firstMaxBy : List (String × Nat) → Option (String × Nat)
  | [] => none
  | p :: ps => some (ps.foldl maxStep p)

/-- `get_species(sketch_df)` from `bin/parse_sketch_output.py`.
Missing `taxName` column: the `KeyError` is caught and `('NA','NA')` returned.
Present but empty column: `tax_list[0]` raises `KeyError` outside the
`try` block, so the exception escapes. -/
def get_species (df : HitTable) : Except String (String × String) :=
  match lookupCol df "taxName" with
  | none => Except.ok ("NA", "NA")
  | some [] => Except.error "KeyError: 0"
  | some (t0 :: rest) =>
    match firstMaxBy (counter ((t0 :: rest).map genusToken)) with
    | none => Except.error "IndexError: list index out of range"
    | some (g, _) => Except.ok (g, t0)

/-- One output row of the Resolver / one input row of the Aggregator:
the `sample, genus, taxonomy` record. -/
structure SampleCall where
  sample : String
  genus : String
  taxonomy : String
deriving DecidableEq

/-- The whole Resolver run for one sample: `get_species` followed by the
construction of the one-row output frame `{'sample': [id], 'genus': genus,
'taxonomy': tax}`. -/
def resolve (df : HitTable) (sid : String) : Except String SampleCall :=
  match get_species df with
  | Except.ok (g, t) => Except.ok ⟨sid, g, t⟩
  | Except.error e => Except.error e

/-- `pd.concat([...])` over the input tables: all rows, each table's internal
order and the given table order preserved. -/
def concatTables (ts : List (List SampleCall)) : List SampleCall := ts.flatten

/-- Python string `<=`: lexicographic comparison of the code points. -/
def pyStrLe : List Char → List Char → Bool
  | [], _ => true
  | _ :: _, [] => false
  | c :: cs, d :: ds =>
    if c.toNat < d.toNat then true
    else if d.toNat < c.toNat then false
    else pyStrLe cs ds

/-- Adjacent rows are weakly ascending on the `taxonomy` field. -/
def isSortedByTax : List SampleCall → Bool
  | [] => true
  | [_] => true
  | a :: b :: rest => pyStrLe a.taxonomy.data b.taxonomy.data && isSortedByTax (b :: rest)

/-- `df.sort_values(by='taxonomy', inplace=True)` from
`bin/collect_sketch_output.py`, applied after `pd.concat`. pandas' default
sort kind is `quicksort`, which fixes no order among rows with equal keys,
so the output is specified only up to this relation: a permutation of the
concatenation that is ascending in `taxonomy`. -/
def IsAggregateOutput (ts : List (List SampleCall)) (out : List SampleCall) : Prop :=
  (concatTables ts).Perm out ∧ isSortedByTax out = true

/-- Modelled from the spec: "the substring up to (and excluding) the first
whitespace character of its taxonomy-name value" — any whitespace character,
for comparison with the source's space-only `split(' ')`. -/
def specWhitespaceToken (s : String) : String :=
  String.mk (s.data.takeWhile (fun c => !c.isWhitespace))

/-- Modelled from the spec: "the token that was first to reach the maximum
count when scanning rows in their original order" — the token whose running
occurrence count is first to hit the maximal final count. -/
def firstToReachMax (xs : List String) : Option String :=
  let m := (xs.map (fun t => xs.count t)).foldl Nat.max 0
  (List.range xs.length).findSome? (fun i =>
    match xs.get? i with
    | some t => if (xs.take (i + 1)).count t = m then some t else none
    | none => none)

/-- The keys of `counter xs` in order: each element of `xs` at its first
occurrence. -/
def firstOccs (xs : List String) : List String :=
  xs.foldl (fun acc x => if x ∈ acc then acc else acc ++ [x]) []

/-- `g` is a most-frequent genus token of `toks`, with ties going to the
token whose first occurrence in `toks` comes earliest. -/
def IsTopGenus (toks : List String) (g : String) : Prop :=
  g ∈ toks ∧ (∀ k ∈ toks, toks.count k ≤ toks.count g) ∧
    (∀ k ∈ toks, toks.count k = toks.count g → toks.indexOf g ≤ toks.indexOf k)

/-! ### Helper lemmas about `firstOccs`, `counter` and `firstMaxBy` -/

theorem firstOccs_concat (l : List String) (a : String) :
    firstOccs (l ++ [a]) = if a ∈ firstOccs l then firstOccs l else firstOccs l ++ [a] := by
  simp [firstOccs, List.foldl_append]

theorem mem_firstOccs (x : String) (l : List String) : x ∈ firstOccs l ↔ x ∈ l := by
  induction l using List.reverseRecOn with
  | nil => simp [firstOccs]
  | append_singleton l a ih =>
    rw [firstOccs_concat]
    by_cases h : a ∈ firstOccs l
    · rw [if_pos h]
      simp only [List.mem_append, List.mem_singleton, ih]
      constructor
      · exact fun hx => Or.inl hx
      · rintro (hx | rfl)
        · exact hx
        · exact ih.mp h
    · rw [if_neg h]
      simp [ih]

theorem counter_concat (l : List String) (a : String) :
    counter (l ++ [a]) = counterAdd (counter l) a := by
  simp [counter, List.foldl_append]

theorem counter_eq (l : List String) :
    counter l = (firstOccs l).map (fun k => (k, l.count k)) := by
  induction l using List.reverseRecOn with
  | nil => simp [counter, firstOccs]
  | append_singleton l a ih =>
    rw [counter_concat, ih, firstOccs_concat, counterAdd]
    by_cases h : a ∈ firstOccs l
    · have hany : (((firstOccs l).map (fun k => (k, l.count k))).any
          (fun p => p.1 == a)) = true := by
        rw [List.any_eq_true]
        exact ⟨(a, l.count a), List.mem_map_of_mem _ h, by simp⟩
      rw [if_pos h, if_pos hany, List.map_map]
      refine List.map_congr_left (fun k _ => ?_)
      by_cases hka : k = a
      · subst hka
        simp [List.count_append, List.count_singleton]
      · have : ¬((a : String) == k) = true := by simpa using fun h => hka h.symm
        simp [List.count_append, List.count_singleton, hka, this]
    · have hnotl : a ∉ l := fun hx => h ((mem_firstOccs a l).mpr hx)
      have hany : (((firstOccs l).map (fun k => (k, l.count k))).any
          (fun p => p.1 == a)) = false := by
        rw [List.any_eq_false]
        rintro ⟨k, n⟩ hk
        obtain ⟨k', hk', hkeq⟩ := List.mem_map.mp hk
        obtain ⟨rfl, rfl⟩ : k' = k ∧ l.count k' = n := ⟨congrArg Prod.fst hkeq, congrArg Prod.snd hkeq⟩
        simp only [beq_iff_eq]
        exact fun hka => h (hka ▸ hk')
      rw [if_neg h, if_neg (by simp [hany]), List.map_append]
      congr 1
      · refine List.map_congr_left (fun k hk => ?_)
        have hkl : k ∈ l := (mem_firstOccs k l).mp hk
        have hka : k ≠ a := fun hka => hnotl (hka ▸ hkl)
        have : ¬((a : String) == k) = true := by simpa using fun h => hka h.symm
        simp [List.count_append, List.count_singleton, this]
      · have : l.count a = 0 := List.count_eq_zero.mpr hnotl
        simp [List.count_append, List.count_singleton, this]

theorem indexOf_concat_self (l : List String) (a : String) (h : a ∉ l) :
    (l ++ [a]).indexOf a = l.length := by
  induction l with
  | nil => simp
  | cons b t ih =>
    have hba : ¬((b : String) == a) = true := by
      simp only [beq_iff_eq]
      exact fun hba => h (hba ▸ List.mem_cons_self b t)
    have ht : a ∉ t := fun hx => h (List.mem_cons_of_mem b hx)
    simp [List.cons_append, List.indexOf_cons, hba, ih ht]

theorem firstOccs_pairwise (l : List String) :
    (firstOccs l).Pairwise (fun a b => l.indexOf a < l.indexOf b) := by
  induction l using List.reverseRecOn with
  | nil => simp [firstOccs]
  | append_singleton l a ih =>
    rw [firstOccs_concat]
    by_cases h : a ∈ firstOccs l
    · rw [if_pos h]
      refine ih.imp_of_mem (fun hx hy hxy => ?_)
      rwa [List.indexOf_append_of_mem ((mem_firstOccs _ l).mp hx),
        List.indexOf_append_of_mem ((mem_firstOccs _ l).mp hy)]
    · rw [if_neg h]
      have hnotl : a ∉ l := fun hx => h ((mem_firstOccs a l).mpr hx)
      rw [List.pairwise_append]
      refine ⟨ih.imp_of_mem (fun hx hy hxy => ?_), List.pairwise_singleton .., ?_⟩
      · rwa [List.indexOf_append_of_mem ((mem_firstOccs _ l).mp hx),
          List.indexOf_append_of_mem ((mem_firstOccs _ l).mp hy)]
      · intro x hx b hb
        rw [List.mem_singleton] at hb
        subst hb
        have hxl : x ∈ l := (mem_firstOccs x l).mp hx
        rw [List.indexOf_append_of_mem hxl, indexOf_concat_self l b hnotl]
        exact List.indexOf_lt_length.mpr hxl

theorem foldl_max_decomp (x : String × Nat) (xs : List (String × Nat)) :
    ∃ L1 L2, x :: xs = L1 ++ (xs.foldl maxStep x) :: L2 ∧
      (∀ q ∈ L1, q.2 < (xs.foldl maxStep x).2) ∧
      (∀ q ∈ L2, q.2 ≤ (xs.foldl maxStep x).2) := by
  induction xs generalizing x with
  | nil => exact ⟨[], [], rfl, by simp, by simp⟩
  | cons y ys ih =>
    rw [List.foldl_cons]
    by_cases h : y.2 > x.2
    · rw [show maxStep x y = y from if_pos h]
      obtain ⟨L1, L2, hdecomp, hlt, hle⟩ := ih y
      refine ⟨x :: L1, L2, ?_, ?_, hle⟩
      · rw [List.cons_append, ← hdecomp]
      · intro q hq
        rcases List.mem_cons.mp hq with rfl | hq
        · have hy : y.2 ≤ (ys.foldl maxStep y).2 := by
            rcases L1 with _ | ⟨z, L1t⟩
            · have hy' : y = ys.foldl maxStep y := by
                simpa using congrArg List.head? hdecomp
              exact le_of_eq (congrArg Prod.snd hy')
            · have hz : y = z := by simpa using congrArg List.head? hdecomp
              have := hlt z (List.mem_cons_self z L1t)
              rw [← hz] at this
              exact le_of_lt this
          exact lt_of_lt_of_le h hy
        · exact hlt q hq
    · rw [show maxStep x y = x from if_neg h]
      obtain ⟨L1, L2, hdecomp, hlt, hle⟩ := ih x
      rcases L1 with _ | ⟨z, L1t⟩
      · have hx : x = ys.foldl maxStep x := by
          simpa using congrArg List.head? hdecomp
        have hys : ys = L2 := by simpa using congrArg List.tail hdecomp
        refine ⟨[], y :: L2, ?_, by simp, ?_⟩
        · rw [List.nil_append, ← hx, hys]
        · intro q hq
          rcases List.mem_cons.mp hq with rfl | hq
          · have hy : q.2 ≤ x.2 := le_of_not_lt h
            exact le_trans hy (le_of_eq (congrArg Prod.snd hx))
          · exact hle q hq
      · have hz : x = z := by simpa using congrArg List.head? hdecomp
        have hys : ys = L1t ++ (ys.foldl maxStep x) :: L2 := by
          simpa using congrArg List.tail hdecomp
        refine ⟨x :: y :: L1t, L2, ?_, ?_, hle⟩
        · rw [List.cons_append, List.cons_append, ← hys]
        · have hxlt : x.2 < (ys.foldl maxStep x).2 := by
            have := hlt z (List.mem_cons_self z L1t)
            rw [← hz] at this
            exact this
          intro q hq
          rcases List.mem_cons.mp hq with rfl | hq
          · exact hxlt
          · rcases List.mem_cons.mp hq with rfl | hq
            · exact lt_of_le_of_lt (le_of_not_lt h) hxlt
            · exact hlt q (List.mem_cons_of_mem z hq)

theorem firstMaxBy_decomp (L : List (String × Nat)) (p : String × Nat)
    (h : firstMaxBy L = some p) :
    ∃ L1 L2, L = L1 ++ p :: L2 ∧ (∀ q ∈ L1, q.2 < p.2) ∧ (∀ q ∈ L2, q.2 ≤ p.2) := by
  cases L with
  | nil => simp [firstMaxBy] at h
  | cons x xs =>
    have hp : xs.foldl maxStep x = p := by
      simpa [firstMaxBy] using h
    exact hp ▸ foldl_max_decomp x xs

theorem pySplitSpace_ne_nil (cs : List Char) : pySplitSpace cs ≠ [] := by
  cases cs with
  | nil => simp [pySplitSpace]
  | cons c cs =>
    by_cases h : c = ' '
    · simp [pySplitSpace, h]
    · simp only [pySplitSpace, if_neg h]
      cases pySplitSpace cs <;> simp

theorem pySplitSpace_headD (cs : List Char) :
    (pySplitSpace cs).headD [] = cs.takeWhile (fun c => c != ' ') := by
  induction cs with
  | nil => rfl
  | cons c cs ih =>
    by_cases h : c = ' '
    · subst h
      simp [pySplitSpace, List.takeWhile_cons]
    · rw [List.takeWhile_cons]
      have hb : (c != ' ') = true := by simp [h]
      rw [if_pos hb]
      simp only [pySplitSpace, if_neg h]
      cases hps : pySplitSpace cs with
      | nil => exact absurd hps (pySplitSpace_ne_nil cs)
      | cons w ws =>
        rw [hps] at ih
        show ((c :: w) :: ws).headD [] = c :: List.takeWhile (fun c => c != ' ') cs
        simp only [List.headD_cons] at ih ⊢
        rw [ih]

theorem genusToken_eq_takeWhile (s : String) :
    genusToken s = String.mk (s.data.takeWhile (fun c => c != ' ')) := by
  rw [genusToken, pySplitSpace_headD]

theorem firstMaxBy_counter_isTopGenus (toks : List String) (g : String) (c : Nat)
    (h : firstMaxBy (counter toks) = some (g, c)) : IsTopGenus toks g := by
  obtain ⟨L1, L2, hdec, hlt, hle⟩ := firstMaxBy_decomp _ _ h
  rw [counter_eq] at hdec
  obtain ⟨F1, l2, hocc, hmapF1, hmapl2⟩ := List.map_eq_append_iff.mp hdec
  obtain ⟨g', F2, hl2, hfk, hmapF2⟩ := List.map_eq_cons_iff.mp hmapl2
  obtain ⟨hg', hc⟩ : g = g' ∧ toks.count g' = c :=
    ⟨(congrArg Prod.fst hfk).symm, congrArg Prod.snd hfk⟩
  subst hg'
  subst hl2
  have hcount : ∀ k ∈ toks, toks.count k ≤ toks.count g := by
    intro k hk
    have hkocc : k ∈ firstOccs toks := (mem_firstOccs k toks).mpr hk
    rw [hocc] at hkocc
    rcases List.mem_append.mp hkocc with hk1 | hk2
    · have : (k, toks.count k) ∈ L1 := by
        rw [← hmapF1]
        exact List.mem_map_of_mem _ hk1
      exact le_of_lt (hc ▸ hlt _ this)
    · rcases List.mem_cons.mp hk2 with rfl | hk2
      · exact le_refl _
      · have : (k, toks.count k) ∈ L2 := by
          rw [← hmapF2]
          exact List.mem_map_of_mem _ hk2
        exact hc ▸ hle _ this
  refine ⟨?_, hcount, ?_⟩
  · have : g ∈ firstOccs toks := by
      rw [hocc]
      exact List.mem_append_right _ (List.mem_cons_self g F2)
    exact (mem_firstOccs g toks).mp this
  · intro k hk hkc
    have hkocc : k ∈ firstOccs toks := (mem_firstOccs k toks).mpr hk
    rw [hocc] at hkocc
    rcases List.mem_append.mp hkocc with hk1 | hk2
    · exfalso
      have : (k, toks.count k) ∈ L1 := by
        rw [← hmapF1]
        exact List.mem_map_of_mem _ hk1
      have := hc ▸ hlt _ this
      exact absurd hkc (ne_of_lt this)
    · rcases List.mem_cons.mp hk2 with rfl | hk2
      · exact le_refl _
      · have hpw := firstOccs_pairwise toks
        rw [hocc, List.pairwise_append] at hpw
        have := (List.pairwise_cons.mp hpw.2.1).1 k hk2
        exact le_of_lt this

theorem firstMaxBy_counter_cons (t : String) (rest : List String) :
    ∃ g c, firstMaxBy (counter (t :: rest)) = some (g, c) := by
  have hne : counter (t :: rest) ≠ [] := by
    rw [counter_eq]
    intro hmap
    have : t ∈ firstOccs (t :: rest) := (mem_firstOccs t _).mpr (List.mem_cons_self t rest)
    have := List.ne_nil_of_mem this
    exact this (List.map_eq_nil_iff.mp hmap)
  cases hc : counter (t :: rest) with
  | nil => exact absurd hc hne
  | cons p ps => exact ⟨(ps.foldl maxStep p).1, (ps.foldl maxStep p).2, by simp [firstMaxBy]⟩

/-! ### Shared characterization of `get_species` and `resolve` -/

theorem get_species_lookup_none (df : HitTable)
    (h : lookupCol df "taxName" = none) :
    get_species df = Except.ok ("NA", "NA") := by
  simp [get_species, h]

theorem get_species_lookup_nil (df : HitTable)
    (h : lookupCol df "taxName" = some []) :
    get_species df = Except.error "KeyError: 0" := by
  simp [get_species, h]

theorem get_species_lookup_cons (df : HitTable) (r : String) (rest : List String)
    (h : lookupCol df "taxName" = some (r :: rest)) :
    ∃ g, get_species df = Except.ok (g, r) := by
  obtain ⟨g, c, hfm⟩ := firstMaxBy_counter_cons (genusToken r) (rest.map genusToken)
  refine ⟨g, ?_⟩
  simp only [get_species, h, List.map_cons]
  rw [hfm]

theorem get_species_top_genus (df : HitTable) (rows : List String)
    (g t : String) (hl : lookupCol df "taxName" = some rows)
    (hs : get_species df = Except.ok (g, t)) :
    IsTopGenus (rows.map genusToken) g := by
  cases rows with
  | nil => simp [get_species, hl] at hs
  | cons r rest =>
    simp only [get_species, hl] at hs
    split at hs
    · exact absurd hs (by simp)
    · rename_i g' c heq
      simp only [Except.ok.injEq, Prod.mk.injEq] at hs
      obtain ⟨hg, ht⟩ := hs
      subst hg
      exact firstMaxBy_counter_isTopGenus _ _ _ heq

theorem resolve_lookup_none (df : HitTable) (sid : String)
    (h : lookupCol df "taxName" = none) :
    resolve df sid = Except.ok ⟨sid, "NA", "NA"⟩ := by
  rw [resolve, get_species_lookup_none df h]

/-! ### Claim theorems -/

/-- C1 (counterexample): the claim's tie-break rule "the token that was first
to reach the maximum count" is not what the code implements. For the rows
`["A x", "B y", "B z", "A w"]` both genus tokens end with count 2; token `"B"`
is the first to reach count 2 (at the third row), yet `get_species` returns
`"A"`, the token whose first occurrence comes earliest. -/
theorem c1_counterexample :
    get_species [("taxName", ["A x", "B y", "B z", "A w"])] = Except.ok ("A", "A x") ∧
    firstToReachMax (["A x", "B y", "B z", "A w"].map genusToken) = some "B" ∧
    ("A" : String) ≠ "B" :=
  ⟨rfl, rfl, by decide⟩

/-- C1 (amended): whenever the taxonomy-name column is present and
`get_species` succeeds, the returned genus is a genus token of maximal
occurrence count among the rows' tokens, and on a tie between tokens of equal
maximal count the token whose first occurrence comes earliest in row order is
selected (first-encountered-wins); in particular for `["A x", "B y"]` the
genus is `"A"`. -/
theorem c1_genus_most_common_first_encountered (df : HitTable) (rows : List String)
    (g t : String) (hl : lookupCol df "taxName" = some rows)
    (hs : get_species df = Except.ok (g, t)) :
    IsTopGenus (rows.map genusToken) g :=
  get_species_top_genus df rows g t hl hs

/-- C1 (witness): the amended theorem applied to the spec's tie example. -/
theorem c1_witness :
    get_species [("taxName", ["A x", "B y"])] = Except.ok ("A", "A x") ∧
    IsTopGenus (["A x", "B y"].map genusToken) "A" :=
  ⟨rfl, c1_genus_most_common_first_encountered [("taxName", ["A x", "B y"])]
    ["A x", "B y"] "A" "A x" rfl rfl⟩

/-- C2: whenever the `taxName` column is absent, `resolve` returns the normal
(non-error) sample call with genus and taxonomy both `"NA"`, for every sample
identifier and regardless of the other columns. -/
theorem c2_na_when_column_absent (df : HitTable) (sid : String)
    (h : lookupCol df "taxName" = none) :
    resolve df sid = Except.ok ⟨sid, "NA", "NA"⟩ :=
  resolve_lookup_none df sid h

/-- C2 (witness): a table with only an unrelated column. -/
theorem c2_witness : resolve [("foo", ["x"])] "s1" = Except.ok ⟨"s1", "NA", "NA"⟩ :=
  c2_na_when_column_absent [("foo", ["x"])] "s1" rfl

/-- C3 (counterexample): an empty table whose `taxName` column is present with
zero rows is not accepted silently: `tax_list[0]` raises an uncaught
`KeyError`, contradicting the claim that no exception is surfaced for an
empty table. -/
theorem c3_counterexample :
    get_species [("taxName", [])] = Except.error "KeyError: 0" := rfl

/-- C3 (amended): a completely empty table (no columns at all) is handled via
the `("NA","NA")` fallback without error, but any table whose `taxName`
column is present with zero rows makes `get_species` raise (`tax_list[0]`
lies outside the `try` block). -/
theorem c3_empty_handling :
    get_species ([] : HitTable) = Except.ok ("NA", "NA") ∧
    ∀ df : HitTable, lookupCol df "taxName" = some [] →
      get_species df = Except.error "KeyError: 0" :=
  ⟨rfl, fun df h => get_species_lookup_nil df h⟩

/-- C3 (witness): the second conjunct applied to a concrete two-column table. -/
theorem c3_witness :
    get_species [("other", ["v"]), ("taxName", [])] = Except.error "KeyError: 0" :=
  c3_empty_handling.2 [("other", ["v"]), ("taxName", [])] rfl

/-- C5: whenever the `taxName` column is present with at least one row,
`get_species` succeeds and the returned taxonomy is the first (rank-1) row's
taxonomy-name value. -/
theorem c5_taxonomy_is_first_row (df : HitTable) (r : String) (rest : List String)
    (h : lookupCol df "taxName" = some (r :: rest)) :
    ∃ g, get_species df = Except.ok (g, r) :=
  get_species_lookup_cons df r rest h

/-- C5 (witness): the spec's one-row `"Escherichia coli"` example. -/
theorem c5_witness :
    ∃ g, get_species [("taxName", ["Escherichia coli"])] = Except.ok (g, "Escherichia coli") :=
  c5_taxonomy_is_first_row [("taxName", ["Escherichia coli"])] "Escherichia coli" [] rfl

/-- C6 (counterexample): the genus token is not cut at the first whitespace
character, only at the first space: for the taxonomy name `"A\tb"` (a tab,
no space) the code's token is the whole value `"A\tb"`, while the claim's
"up to the first whitespace character" token would be `"A"`. -/
theorem c6_counterexample :
    genusToken "A\tb" = "A\tb" ∧ specWhitespaceToken "A\tb" = "A" ∧
    get_species [("taxName", ["A\tb"])] = Except.ok ("A\tb", "A\tb") ∧
    ("A\tb" : String) ≠ "A" :=
  ⟨rfl, rfl, rfl, by decide⟩

/-- C6 (amended): for every row, the genus token used for frequency counting
is the substring of the taxonomy-name value up to (and excluding) the first
space character (U+0020); other whitespace characters do not delimit it. -/
theorem c6_genus_token_upto_first_space (s : String) :
    genusToken s = String.mk (s.data.takeWhile (fun c => c != ' ')) :=
  genusToken_eq_takeWhile s

/-- C7: every output the aggregation step can produce has exactly the sum of
the input tables' row counts, and its rows are exactly the concatenated input
rows with multiplicity (no row dropped, duplicated or deduplicated). -/
theorem c7_row_conservation (ts : List (List SampleCall)) (out : List SampleCall)
    (h : IsAggregateOutput ts out) :
    out.length = (ts.map List.length).sum ∧
      (out : Multiset SampleCall) = (concatTables ts : Multiset SampleCall) := by
  obtain ⟨hperm, _⟩ := h
  refine ⟨?_, ?_⟩
  · rw [← hperm.length_eq, concatTables, List.length_flatten]
  · exact Multiset.coe_eq_coe.mpr hperm.symm

/-- C7 (witness): the spec's two-table example, sorted output `[s2-row, s1-row]`. -/
theorem c7_witness :
    ([⟨"s2", "B", "Aa"⟩, ⟨"s1", "A", "Zz"⟩] : List SampleCall).length =
      ([[(⟨"s1", "A", "Zz"⟩ : SampleCall)], [⟨"s2", "B", "Aa"⟩]].map List.length).sum ∧
    (([⟨"s2", "B", "Aa"⟩, ⟨"s1", "A", "Zz"⟩] : List SampleCall) : Multiset SampleCall) =
      (concatTables [[⟨"s1", "A", "Zz"⟩], [⟨"s2", "B", "Aa"⟩]] : Multiset SampleCall) :=
  c7_row_conservation [[⟨"s1", "A", "Zz"⟩], [⟨"s2", "B", "Aa"⟩]]
    [⟨"s2", "B", "Aa"⟩, ⟨"s1", "A", "Zz"⟩] ⟨by decide, rfl⟩

/-- C9 (counterexample): the claimed biconditional "both are `NA` exactly
when the taxonomy-name field is absent" fails: a present `taxName` column
whose value is the literal string `"NA"` also yields `genus = taxonomy = "NA"`.
And a genus need not be a whitespace-delimited token of a value: for the
value `"NA\tx"` the selected genus `"NA\tx"` contains a tab, whereas the
first whitespace-delimited token is `"NA"`. -/
theorem c9_counterexample :
    (resolve [("taxName", ["NA"])] "s" = Except.ok ⟨"s", "NA", "NA"⟩ ∧
      lookupCol [("taxName", ["NA"])] "taxName" ≠ none) ∧
    (resolve [("taxName", ["NA\tx"])] "s" = Except.ok ⟨"s", "NA\tx", "NA\tx"⟩ ∧
      specWhitespaceToken "NA\tx" = "NA" ∧ ("NA\tx" : String) ≠ "NA") :=
  ⟨⟨rfl, by decide⟩, ⟨rfl, rfl, by decide⟩⟩

/-- C9 (amended): every successful `resolve` result carries the supplied
sample id, and either the `taxName` column is absent and genus and taxonomy
are both the string `"NA"`, or the column is present (necessarily nonempty)
and the taxonomy is the first row's value while the genus is a most-frequent
first-space-token of the rows' values with first-encountered tie-break;
the string `"NA"` is not a reserved sentinel, so present-column results may
coincide with it. -/
theorem c9_invariant (df : HitTable) (sid : String) (call : SampleCall)
    (h : resolve df sid = Except.ok call) :
    call.sample = sid ∧
    ((lookupCol df "taxName" = none ∧ call.genus = "NA" ∧ call.taxonomy = "NA") ∨
     (∃ r rest, lookupCol df "taxName" = some (r :: rest) ∧ call.taxonomy = r ∧
       IsTopGenus ((r :: rest).map genusToken) call.genus)) := by
  rcases hlook : lookupCol df "taxName" with _ | rows
  · have hr := resolve_lookup_none df sid hlook
    rw [h] at hr
    obtain rfl : call = ⟨sid, "NA", "NA"⟩ := by simpa using hr
    exact ⟨rfl, Or.inl ⟨rfl, rfl, rfl⟩⟩
  · cases rows with
    | nil =>
      exfalso
      rw [resolve, get_species_lookup_nil df hlook] at h
      simp at h
    | cons r rest =>
      obtain ⟨g, hget⟩ := get_species_lookup_cons df r rest hlook
      rw [resolve, hget] at h
      obtain rfl : call = ⟨sid, g, r⟩ := by simpa using h.symm
      refine ⟨rfl, Or.inr ⟨r, rest, rfl, rfl, ?_⟩⟩
      exact get_species_top_genus df (r :: rest) g r hlook hget

/-- C9 (witness): the amended invariant at a one-row table. -/
theorem c9_witness :
    (⟨"s", "A", "A b"⟩ : SampleCall).sample = "s" ∧
    ((lookupCol [("taxName", ["A b"])] "taxName" = none ∧
        (⟨"s", "A", "A b"⟩ : SampleCall).genus = "NA" ∧
        (⟨"s", "A", "A b"⟩ : SampleCall).taxonomy = "NA") ∨
     (∃ r rest, lookupCol [("taxName", ["A b"])] "taxName" = some (r :: rest) ∧
        (⟨"s", "A", "A b"⟩ : SampleCall).taxonomy = r ∧
        IsTopGenus ((r :: rest).map genusToken) (⟨"s", "A", "A b"⟩ : SampleCall).genus)) :=
  c9_invariant [("taxName", ["A b"])] "s" ⟨"s", "A", "A b"⟩ rfl

/-- C10: a taxonomy-name value containing no space character is its own genus
token, and in particular a one-row table with value `"Escherichia"` resolves
to genus `"Escherichia"` and taxonomy `"Escherichia"`. -/
theorem c10_no_space_value_is_token :
    (∀ s : String, (∀ c ∈ s.data, c ≠ ' ') → genusToken s = s) ∧
    get_species [("taxName", ["Escherichia"])] = Except.ok ("Escherichia", "Escherichia") := by
  refine ⟨fun s h => ?_, rfl⟩
  rw [genusToken_eq_takeWhile]
  rw [List.takeWhile_eq_self_iff.mpr (fun c hc => by simpa using h c hc)]

/-- C10 (witness): the first conjunct applied to a concrete space-free value. -/
theorem c10_witness : genusToken "Burkholderia" = "Burkholderia" :=
  c10_no_space_value_is_token.1 "Burkholderia" (by decide)

end Spid
